import Mathlib

/-!
Verification of the conflict-detection and settings-merge core of the
danizee-claude-suite installer (src/src/utils/conflicts.js and
src/src/utils/settings.js), shallowly embedded in Lean.

JavaScript values are modelled by the inductive type `Jv`; objects are
insertion-ordered association lists (JSON-parsed objects have unique keys;
the JS reordering of integer-like keys ahead of string keys is not modelled,
and no property proved here depends on enumeration order of integer-like
keys).  Machine floats appear only in `areSimilar`, where the quotient is
modelled by an exact rational; the one observable float artefact (0/0 = NaN,
and NaN <= t is false for every t) is modelled explicitly by the
`maxLength = 0` branch.
-/

/-- A JavaScript/JSON value.  Numbers are modelled as integers: every number
occurring in the repository's settings trees and in the claims is integral. -/
inductive Jv where
  | null
  | bool (b : Bool)
  | num (n : Int)
  | str (s : String)
  | arr (elems : List Jv)
  | obj (entries : List (String × Jv))

/-- JavaScript truthiness: `false`, `0`, `""`, `null` (and `undefined`,
modelled as an absent `Option`) are falsy; every object and array is truthy. -/
def truthy : Jv → Bool
  | Jv.null => false
  | Jv.bool b => b
  | Jv.num n => n != 0
  | Jv.str s => s != ""
  | Jv.arr _ => true
  | Jv.obj _ => true

/-- Truthiness of a possibly-absent value (`undefined` is falsy). -/
def truthyOpt : Option Jv → Bool
  | some v => truthy v
  | none => false

/-- First-match association-list lookup: JS property access on an object. -/
def jlookup : List (String × Jv) → String → Option Jv
  | [], _ => none
  | (k1, v1) :: rest, k => if k1 = k then some v1 else jlookup rest k

/-- The own enumerable string-keyed entries a value contributes under object
spread `{...v}` (and the `Object.keys` view used by `deepMerge`): an object
gives its entries, an array or string gives index-keyed entries, and a
primitive gives none. -/
def toObjEntries : Jv → List (String × Jv)
  | Jv.obj o => o
  | Jv.arr l => l.enum.map (fun p => (toString p.1, p.2))
  | Jv.str s => s.toList.enum.map (fun p => (toString p.1, Jv.str (String.singleton p.2)))
  | _ => []

/-- JS property access `v[k]` for the value shapes reachable in this code. -/
def getProp (v : Jv) (k : String) : Option Jv :=
  jlookup (toObjEntries v) k

/-- JS assignment `result[key] = v`: an existing property keeps its position,
a new property is appended. -/
def setKey : List (String × Jv) → String → Jv → List (String × Jv)
  | [], k, v => [(k, v)]
  | (k1, v1) :: rest, k, v =>
      if k1 = k then (k, v) :: rest else (k1, v1) :: setKey rest k v

/-- The expression `x || {}` from `deepMerge`: a falsy or absent value is
replaced by a fresh empty object. -/
def jsOrEmptyObj : Option Jv → Jv
  | some v => if truthy v then v else Jv.obj []
  | none => Jv.obj []

/-- Loop body of `deepMerge` (settings.js lines 12-24): `target` is the fixed
entry list of the original target, `res` the accumulator started as
`{...target}`, and the third argument the not-yet-processed entries of
`source`.  A source value that is a non-null, non-array object is merged
recursively against `target[key] || {}`; anything else is assigned directly. -/
def deepMergeAux (target : List (String × Jv)) :
    List (String × Jv) → List (String × Jv) → List (String × Jv)
  | res, [] => res
  | res, (k, Jv.obj o) :: rest =>
      let t := toObjEntries (jsOrEmptyObj (jlookup target k))
      deepMergeAux target (setKey res k (Jv.obj (deepMergeAux t t o))) rest
  | res, (k, sv) :: rest => deepMergeAux target (setKey res k sv) rest
termination_by _ src => sizeOf src
decreasing_by
  all_goals simp
  all_goals omega

/-- `deepMerge(target, source)` from settings.js: returns a fresh object,
never writing to either argument. -/
def deepMerge (target source : Jv) : Jv :=
  Jv.obj (deepMergeAux (toObjEntries target) (toObjEntries target) (toObjEntries source))

/-! ## Levenshtein distance (conflicts.js lines 13-39)

The source fills a `(b.length+1) x (a.length+1)` matrix row by row;
`matrix[i][j]` is computed from the three neighbours `matrix[i-1][j-1]`
(diagonal), `matrix[i][j-1]` (left) and `matrix[i-1][j]` (up), and the
function returns `matrix[b.length][a.length]`.  The embedding keeps the row
structure: `fillRow` is the inner `j`-loop, `buildRows` the outer `i`-loop. -/

/-- Inner column loop of `levenshteinDistance`: `cs` are the remaining
characters of `a`, `diag` is `matrix[i-1][j-1]`, `left` is `matrix[i][j-1]`,
and `prev` holds `matrix[i-1][j], matrix[i-1][j+1], ...`. -/
def fillRow (bc : Char) : List Char → Nat → Nat → List Nat → List Nat
  | [], _, _, _ => []
  | c :: cs, diag, left, prev =>
      let up := prev.headD 0
      let v := if bc = c then diag else min (diag + 1) (min (left + 1) (up + 1))
      v :: fillRow bc cs up v prev.tail

/-- Row `i` of the matrix: first cell `i`, the rest filled by `fillRow`
from the previous row. -/
def nextRow (a : List Char) (bc : Char) (i : Nat) (prev : List Nat) : List Nat :=
  i :: fillRow bc a (prev.headD 0) i prev.tail

/-- Outer row loop of `levenshteinDistance`: processes the characters of `b`
in order, carrying the current row index and the previous row. -/
def buildRows (a : List Char) : List Char → Nat → List Nat → List Nat
  | [], _, row => row
  | bc :: bs, i, row => buildRows a bs (i + 1) (nextRow a bc i row)

/-- `levenshteinDistance(a, b)` from conflicts.js: row 0 is `[0..a.length]`,
rows `1..b.length` are filled in turn, and the entry at column `a.length` of
the final row is returned (`matrix[b.length][a.length]`). -/
def levenshteinDistance (a b : List Char) : Nat :=
  (buildRows a b 1 (List.range (a.length + 1))).getD a.length 0

/-- The classic unit-cost Levenshtein distance (insert / delete / substitute,
cost 1 each), written from the specification as the textbook recursion on
leading characters. -/
def levSpec : List Char → List Char → Nat
  | [], ys => ys.length
  | x :: xs, [] => (x :: xs).length
  | x :: xs, y :: ys =>
      if x = y then levSpec xs ys
      else 1 + min (levSpec xs ys) (min (levSpec (x :: xs) ys) (levSpec xs (y :: ys)))
termination_by xs ys => xs.length + ys.length
decreasing_by all_goals simp <;> omega

/-- Intended contents of the cells of one matrix row from column `j+1` on:
`pb` is the reversed prefix of `b` for this row, `ra` the reversed prefix of
`a` up to column `j`, and the remaining columns correspond to `cs`. -/
def specRow (pb : List Char) : List Char → List Char → List Nat
  | _, [] => []
  | ra, c :: cs => levSpec pb (c :: ra) :: specRow pb (c :: ra) cs

/-! ## Similarity (conflicts.js lines 44-48)

`areSimilar` lower-cases both inputs, takes the distance, and compares
`distance / maxLength` against the threshold.  The quotient and the
threshold are exact rationals here; the source's doubles agree with the
exact values on every comparison exercised below.  When both strings are
empty the source computes `0 / 0 = NaN`, and `NaN <= threshold` is false in
JS for every threshold: that is the `maxLength = 0` branch. -/

/-- The source's default `threshold = 0.3`. -/
def defaultThreshold : Rat := 3 / 10

/-- `areSimilar(a, b, threshold)` from conflicts.js.  Every call in the
repository uses the default threshold.  `toLowerCase()` is modelled
per-character (exact for the ASCII command names this installer handles). -/
def areSimilar (a b : String) (threshold : Rat) : Bool :=
  let distance := levenshteinDistance (a.toList.map Char.toLower) (b.toList.map Char.toLower)
  let maxLength := max a.length b.length
  if maxLength = 0 then false
  else decide ((distance : Rat) / (maxLength : Rat) ≤ threshold)

/-- One detected conflict (the `type` tag, its tag-specific fields, and the
human-readable `message`). -/
inductive ConflictRecord where
  | similar_commands (directory : String) (files : List String) (message : String)
  | plugin_override (plugin : String) (message : String)
  | mcp_server_override (server : String) (message : String)
  | duplicate_mcp (servers : List String) (message : String)
  | existing_installation (version : String) (message : String)
deriving DecidableEq

def similarMsg (nameA nameB : String) : String :=
  "Similar command names detected: \"" ++ nameA ++ "\" and \"" ++ nameB ++ "\""

/-- `files[i].replace('.md', '')`: JS `String.replace` with a string pattern
removes only the first occurrence of the literal substring, wherever it is. -/
def removeFirstOcc (pat : List Char) : List Char → List Char
  | [] => []
  | c :: cs =>
      if (c :: cs).take pat.length = pat then (c :: cs).drop pat.length
      else c :: removeFirstOcc pat cs

def stripMd (s : String) : String :=
  String.mk (removeFirstOcc ".md".toList s.toList)

/-- Inner `j`-loop of `detectDuplicateCommands` for a fixed `files[i]`. -/
def similarRecords (subdir : String) (fi : String) : List String → List ConflictRecord
  | [] => []
  | fj :: rest =>
      (if areSimilar (stripMd fi) (stripMd fj) defaultThreshold then
        [ConflictRecord.similar_commands subdir [fi, fj]
          (similarMsg (stripMd fi) (stripMd fj))]
      else []) ++ similarRecords subdir fi rest

/-- Outer `i`-loop of `detectDuplicateCommands` over one directory's files. -/
def dirRecords (subdir : String) : List String → List ConflictRecord
  | [] => []
  | fi :: rest => similarRecords subdir fi rest ++ dirRecords subdir rest

/-- `detectDuplicateCommands` (conflicts.js lines 53-89) over its input
abstraction: the list of command subdirectories with their file listings
(the filesystem walk, the `isDirectory` filter and the catch for a missing
`commands` directory are the I/O boundary producing this layout). -/
def detectDuplicateCommands : List (String × List String) → List ConflictRecord
  | [] => []
  | (subdir, files) :: rest => dirRecords subdir files ++ detectDuplicateCommands rest

/-- The pairwise scan at the heart of `detectDuplicateCommands`
(conflicts.js lines 67-81), over a list of names: the same two nested index
loops, collecting the pairs flagged similar. -/
def scanPairsFrom (x : String) : List String → List (String × String)
  | [] => []
  | y :: rest =>
      (if areSimilar x y defaultThreshold then [(x, y)] else []) ++ scanPairsFrom x rest

def scanForSimilarNames : List String → List (String × String)
  | [] => []
  | x :: rest => scanPairsFrom x rest ++ scanForSimilarNames rest

/-- Written from the specification: the ordered pairs of positions
`(i, j)` with `i < j`, outer index ascending and inner index ascending,
realised as the corresponding name pairs. -/
def lexPairsSpec (names : List String) : List (String × String) :=
  (List.range names.length).flatMap (fun i =>
    ((List.range names.length).filter (fun j => decide (i < j))).map
      (fun j => (names.getD i "", names.getD j "")))

/-! ## Settings conflicts, MCP duplicates, existing installation
(conflicts.js lines 94-230)

The file reads and `JSON.parse`s are the I/O boundary: a detector receives
`some tree` when its file exists and parses, `none` otherwise (the source's
empty catch blocks turn any read failure into the no-conflict path). -/

def pluginMsg (plugin : String) : String :=
  "Plugin \"" ++ plugin ++ "\" is defined in both settings.json and settings.local.json"

def mcpOverrideMsg (server : String) : String :=
  "MCP server \"" ++ server ++ "\" is defined in both settings files"

def duplicateMcpMsg (nameA nameB : String) : String :=
  "Duplicate MCP server configuration: \"" ++ nameA ++ "\" and \"" ++ nameB ++ "\""

/-- The `plugins` loop of `detectSettingsConflicts`: for each key of
`settings.plugins` (in order), a record is pushed when
`localSettings.plugins[plugin]` is truthy. -/
def pluginOverrides (localPlugins : Jv) : List String → List ConflictRecord
  | [] => []
  | k :: rest =>
      (if truthyOpt (getProp localPlugins k) then
        [ConflictRecord.plugin_override k (pluginMsg k)]
      else []) ++ pluginOverrides localPlugins rest

/-- The `mcpServers` loop of `detectSettingsConflicts`, same shape. -/
def mcpOverrides (localServers : Jv) : List String → List ConflictRecord
  | [] => []
  | k :: rest =>
      (if truthyOpt (getProp localServers k) then
        [ConflictRecord.mcp_server_override k (mcpOverrideMsg k)]
      else []) ++ mcpOverrides localServers rest

/-- Body of `detectSettingsConflicts` once both files exist and parse. -/
def detectSettingsConflictsCore (settings localSettings : Jv) : List ConflictRecord :=
  (match getProp settings "plugins", getProp localSettings "plugins" with
    | some sp, some lp =>
        if truthy sp && truthy lp then
          pluginOverrides lp ((toObjEntries sp).map Prod.fst)
        else []
    | _, _ => []) ++
  (match getProp settings "mcpServers", getProp localSettings "mcpServers" with
    | some sm, some lm =>
        if truthy sm && truthy lm then
          mcpOverrides lm ((toObjEntries sm).map Prod.fst)
        else []
    | _, _ => [])

/-- `detectSettingsConflicts` (conflicts.js lines 94-138): only runs when
both settings files are present. -/
def detectSettingsConflicts : Option Jv → Option Jv → List ConflictRecord
  | some s, some l => detectSettingsConflictsCore s l
  | _, _ => []

mutual
/-- Used for the source's `JSON.stringify(configA.args) ===
JSON.stringify(configB.args)` test: for JSON-parsed trees, equality of the
serialisations coincides with structural equality of the values. -/
def jvBeq : Jv → Jv → Bool
  | Jv.null, Jv.null => true
  | Jv.bool a, Jv.bool b => a == b
  | Jv.num a, Jv.num b => a == b
  | Jv.str a, Jv.str b => a == b
  | Jv.arr a, Jv.arr b => jvListBeq a b
  | Jv.obj a, Jv.obj b => jvEntriesBeq a b
  | _, _ => false

def jvListBeq : List Jv → List Jv → Bool
  | [], [] => true
  | a :: as_, b :: bs_ => jvBeq a b && jvListBeq as_ bs_
  | _, _ => false

def jvEntriesBeq : List (String × Jv) → List (String × Jv) → Bool
  | [], [] => true
  | (k1, v1) :: as_, (k2, v2) :: bs_ => k1 == k2 && jvBeq v1 v2 && jvEntriesBeq as_ bs_
  | _, _ => false
end

/-- `===` of two property values in this code path: primitives compare by
value; `undefined === undefined` is true; two composite values parsed from
JSON are distinct heap objects, so `===` on them is false. -/
def jsStrictEqOpt : Option Jv → Option Jv → Bool
  | none, none => true
  | some Jv.null, some Jv.null => true
  | some (Jv.bool a), some (Jv.bool b) => a == b
  | some (Jv.num a), some (Jv.num b) => a == b
  | some (Jv.str a), some (Jv.str b) => a == b
  | _, _ => false

/-- Inner `j`-loop of `detectMcpConflicts` for a fixed entry `(nameA, configA)`. -/
def mcpDupFrom (nameA : String) (configA : Jv) :
    List (String × Jv) → List ConflictRecord
  | [] => []
  | (nameB, configB) :: rest =>
      (if jsStrictEqOpt (getProp configA "command") (getProp configB "command") &&
          (match getProp configA "args", getProp configB "args" with
            | some va, some vb => jvBeq va vb
            | none, none => true
            | _, _ => false) then
        [ConflictRecord.duplicate_mcp [nameA, nameB] (duplicateMcpMsg nameA nameB)]
      else []) ++ mcpDupFrom nameA configA rest

/-- Outer `i`-loop of `detectMcpConflicts` over `Object.entries(mcpServers)`. -/
def mcpDupScan : List (String × Jv) → List ConflictRecord
  | [] => []
  | (nameA, configA) :: rest => mcpDupFrom nameA configA rest ++ mcpDupScan rest

/-- `detectMcpConflicts` (conflicts.js lines 167-200). -/
def detectMcpConflicts : Option Jv → List ConflictRecord
  | none => []
  | some s =>
      match getProp s "mcpServers" with
      | some ms => if truthy ms then mcpDupScan (toObjEntries ms) else []
      | none => []

/-- Result shape of `detectExistingInstallation`: `version` is `some` of the
recorded value exactly when `installed` (the source omits the field
otherwise), likewise `installedAt`. -/
structure ExistingInfo where
  installed : Bool
  version : Option Jv
  installedAt : Option Jv

/-- `detectExistingInstallation` (conflicts.js lines 143-162): the marker
key `danizee-suite` must be present and truthy; `version` falls back to the
string `unknown` when falsy or absent. -/
def detectExistingInstallation : Option Jv → ExistingInfo
  | none => ⟨false, none, none⟩
  | some s =>
      match getProp s "danizee-suite" with
      | none => ⟨false, none, none⟩
      | some m =>
          if truthy m then
            ⟨true,
              some (match getProp m "version" with
                | some v => if truthy v then v else Jv.str "unknown"
                | none => Jv.str "unknown"),
              getProp m "installedAt"⟩
          else ⟨false, none, none⟩

/-- JS string coercion as used in the `existing_installation` message
template (the versions written by this suite are strings; the element-join
display of composite values is not modelled, no claim depends on it). -/
def jvDisplay : Jv → String
  | Jv.null => "null"
  | Jv.bool true => "true"
  | Jv.bool false => "false"
  | Jv.num n => toString n
  | Jv.str s => s
  | Jv.arr _ => ""
  | Jv.obj _ => "[object Object]"

def existingMsg (version : String) : String :=
  "Danizee Claude Suite v" ++ version ++ " is already installed. Use --force to overwrite."

/-- The record pushed by `runConflictChecks` when an installation exists and
`force` is not set. -/
def existingRecord (e : ExistingInfo) : ConflictRecord :=
  ConflictRecord.existing_installation
    (match e.version with | some v => jvDisplay v | none => "undefined")
    (existingMsg (match e.version with | some v => jvDisplay v | none => "undefined"))

/-- Return shape of `runConflictChecks`. -/
structure ConflictReport where
  hasConflicts : Bool
  conflicts : List ConflictRecord
  existing : ExistingInfo

/-- `runConflictChecks` (conflicts.js lines 205-230): the four detectors run
on disjoint inputs (the `Promise.all` only joins them), their records are
pushed in the fixed order commands, settings, mcp, and one
`existing_installation` record is appended exactly when an installation was
found and `options.force` is falsy. -/
def runConflictChecks (layout : List (String × List String))
    (settings localSettings : Option Jv) (force : Bool) : ConflictReport :=
  let duplicateCommands := detectDuplicateCommands layout
  let settingsConflicts := detectSettingsConflicts settings localSettings
  let mcpConflicts := detectMcpConflicts settings
  let existing := detectExistingInstallation settings
  let allConflicts := duplicateCommands ++ settingsConflicts ++ mcpConflicts
  let allConflicts :=
    if existing.installed && !force then allConflicts ++ [existingRecord existing]
    else allConflicts
  ⟨decide (0 < allConflicts.length), allConflicts, existing⟩

/-! ## removeSettings (settings.js lines 182-197)

With `keepSettings = true` the source parses the settings file, executes
`delete settings['danizee-suite']` on the freshly parsed tree, and writes
the result back; no caller-visible value is mutated.  The pure content is
the tree-to-tree map below. -/

/-- `delete tree[markerKey]` on a parsed JSON object (unique keys): the
marker's entry is removed, everything else keeps its position. -/
def deleteKey (tree : List (String × Jv)) (markerKey : String) : List (String × Jv) :=
  tree.filter (fun e => e.1 != markerKey)

/-- The `keepSettings` branch of `removeSettings`, with the source's fixed
marker key. -/
def removeSettingsKeep (settings : List (String × Jv)) : List (String × Jv) :=
  deleteKey settings "danizee-suite"

/-- All ordered pairs of distinct positions, structurally: the pairs from
the head against every later element, then the pairs of the tail. -/
def allPairs : List String → List (String × String)
  | [] => []
  | x :: rest => rest.map (fun y => (x, y)) ++ allPairs rest

/-! ## Path lookups and well-formedness for the deepMerge claims -/

/-- Follow a path of keys through nested objects. -/
def getPath : Jv → List String → Option Jv
  | v, [] => some v
  | Jv.obj o, k :: p =>
      match jlookup o k with
      | some v => getPath v p
      | none => none
  | _, _ :: _ => none

/-- No two entries share a key (always true of `JSON.parse` output, where a
JS object cannot hold duplicate keys). -/
def noDupKeys : List (String × Jv) → Bool
  | [] => true
  | (k, _) :: rest => !(rest.any (fun e => e.1 == k)) && noDupKeys rest

/-- Along every proper step of the path, the overlay is an object with
unduplicated keys whose value at the step's key is either absent or itself
a plain object — i.e. the path stays inside the region where `deepMerge`
recurses instead of overwriting. -/
def okOverlay : Jv → List String → Bool
  | _, [] => true
  | Jv.obj so_, k :: p =>
      noDupKeys so_ &&
        (match jlookup so_ k with
          | none => true
          | some (Jv.obj o2) => okOverlay (Jv.obj o2) p
          | some _ => false)
  | _, _ :: _ => false

/-- The value `deepMerge` stores for a source entry `(k, sv)`: a recursive
merge against `target[k]`-or-empty when `sv` is a plain object, `sv` itself
otherwise. -/
def mergeVal (target : List (String × Jv)) (k : String) : Jv → Jv
  | Jv.obj o =>
      Jv.obj (deepMergeAux (toObjEntries (jsOrEmptyObj (jlookup target k)))
        (toObjEntries (jsOrEmptyObj (jlookup target k))) o)
  | sv => sv

/-! ## Theorems -/

theorem levSpec_nil_right (xs : List Char) : levSpec xs [] = xs.length := by
  cases xs <;> simp [levSpec]

theorem fillRow_spec (bc : Char) (pb : List Char) :
    ∀ (cs ra : List Char) (diag left : Nat) (prev : List Nat),
      diag = levSpec pb ra → left = levSpec (bc :: pb) ra →
      prev = specRow pb ra cs →
      fillRow bc cs diag left prev = specRow (bc :: pb) ra cs := by
  intro cs
  induction cs with
  | nil => intro ra diag left prev _ _ _; simp [fillRow, specRow]
  | cons c cs ih =>
      intro ra diag left prev hd hl hp
      subst hd hl hp
      have hv : (if bc = c then levSpec pb ra else
          min (levSpec pb ra + 1)
            (min (levSpec (bc :: pb) ra + 1) (levSpec pb (c :: ra) + 1)))
          = levSpec (bc :: pb) (c :: ra) := by
        by_cases h : bc = c <;> rw [levSpec] <;> simp [h] <;> omega
      simp only [fillRow, specRow, List.headD_cons, List.tail_cons]
      rw [hv]
      exact congrArg (List.cons (levSpec (bc :: pb) (c :: ra)))
        (ih (c :: ra) _ _ _ rfl rfl rfl)

theorem specRow_nil_pb : ∀ (cs ra : List Char),
    specRow [] ra cs = List.range' (ra.length + 1) cs.length := by
  intro cs
  induction cs with
  | nil => intro ra; simp [specRow]
  | cons c cs ih =>
      intro ra
      simp only [specRow, List.length_cons]
      rw [List.range'_succ, ih (c :: ra)]
      simp [levSpec]

theorem buildRows_spec (a : List Char) : ∀ (bs pb : List Char) (row : List Nat),
    row = levSpec pb [] :: specRow pb [] a →
    buildRows a bs (pb.length + 1) row
      = levSpec (bs.reverse ++ pb) [] :: specRow (bs.reverse ++ pb) [] a := by
  intro bs
  induction bs with
  | nil => intro pb row h; simpa [buildRows] using h
  | cons bc bs ih =>
      intro pb row h
      subst h
      rw [buildRows]
      have hrow : nextRow a bc (pb.length + 1) (levSpec pb [] :: specRow pb [] a)
          = levSpec (bc :: pb) [] :: specRow (bc :: pb) [] a := by
        rw [nextRow]
        simp only [List.headD_cons, List.tail_cons]
        rw [fillRow_spec bc pb a [] (levSpec pb []) (pb.length + 1)
            (specRow pb [] a) rfl (by simp [levSpec_nil_right]) rfl]
        simp [levSpec_nil_right]
      rw [hrow]
      have := ih (bc :: pb) (levSpec (bc :: pb) [] :: specRow (bc :: pb) [] a) rfl
      simp only [List.length_cons] at this
      rw [this]
      simp

theorem specRow_getD_last : ∀ (cs pb ra : List Char), cs ≠ [] →
    (specRow pb ra cs).getD (cs.length - 1) 0 = levSpec pb (cs.reverse ++ ra) := by
  intro cs
  induction cs with
  | nil => intro pb ra h; exact absurd rfl h
  | cons c cs ih =>
      intro pb ra _
      by_cases hcs : cs = []
      · subst hcs; simp [specRow]
      · rw [specRow]
        have hlen : (c :: cs).length - 1 = (cs.length - 1) + 1 := by
          cases cs with
          | nil => exact absurd rfl hcs
          | cons d ds => simp
        rw [hlen]
        simp only [List.getD_cons_succ]
        rw [ih pb (c :: ra) hcs]
        simp

/-- The DP implementation computes the classic distance of the reversed
inputs (the matrix is indexed by prefixes, the recursion peels last
characters, i.e. heads of the reversed strings). -/
theorem levenshteinDistance_eq_rev (a b : List Char) :
    levenshteinDistance a b = levSpec b.reverse a.reverse := by
  rw [levenshteinDistance]
  have h0 : List.range (a.length + 1) = levSpec ([] : List Char) [] :: specRow [] [] a := by
    rw [specRow_nil_pb a []]
    rw [List.range_eq_range', List.range'_succ]
    simp [levSpec]
  rw [h0]
  have := buildRows_spec a b [] (levSpec ([] : List Char) [] :: specRow [] [] a) rfl
  simp only [List.length_nil, Nat.zero_add, List.append_nil] at this
  rw [this]
  cases ha : a with
  | nil => simp [specRow, levSpec_nil_right]
  | cons c cs =>
      have hne : a ≠ [] := by simp [ha]
      rw [← ha]
      have hlen : a.length = (a.length - 1) + 1 := by
        cases a with
        | nil => exact absurd rfl hne
        | cons d ds => simp
      rw [hlen]
      simp only [List.getD_cons_succ]
      rw [specRow_getD_last a b.reverse [] hne]
      simp

theorem levSpec_nil_left (ys : List Char) : levSpec [] ys = ys.length := by
  rw [levSpec]

theorem levSpec_cons_cons (x y : Char) (xs ys : List Char) :
    levSpec (x :: xs) (y :: ys)
      = if x = y then levSpec xs ys
        else 1 + min (levSpec xs ys)
            (min (levSpec (x :: xs) ys) (levSpec xs (y :: ys))) := by
  rw [levSpec]

theorem min_add_one (x y : Nat) : min (1 + x) (1 + y) = 1 + min x y := by omega

set_option maxHeartbeats 1000000 in
theorem min9_transpose (a1 a2 a3 b1 b2 b3 c1 c2 c3 : Nat) :
    min (min a1 (min a2 a3)) (min (min b1 (min b2 b3)) (min c1 (min c2 c3)))
      = min (min a1 (min b1 c1)) (min (min a2 (min b2 c2)) (min a3 (min b3 c3))) := by
  apply le_antisymm
  · simp only [le_min_iff, min_le_iff]
    omega
  · simp only [le_min_iff, min_le_iff]
    omega

set_option maxHeartbeats 1000000 in
/-- The classic recursion also satisfies the last-character (suffix)
recurrence: this is what lets the prefix-indexed DP matrix compute it. -/
theorem levSpec_concat : ∀ (xs ys : List Char) (x y : Char),
    levSpec (xs ++ [x]) (ys ++ [y])
      = if x = y then levSpec xs ys
        else 1 + min (levSpec xs ys)
            (min (levSpec (xs ++ [x]) ys) (levSpec xs (ys ++ [y])))
  | [], [], x, y => by
      simp only [List.nil_append]
      rw [levSpec_cons_cons]
  | [], z :: zs, x, y => by
      simp only [List.nil_append, List.cons_append]
      rw [levSpec_cons_cons x z [] (zs ++ [y])]
      have ih := levSpec_concat [] zs x y
      simp only [List.nil_append] at ih
      rw [ih]
      rw [levSpec_cons_cons x z [] zs]
      simp only [List.nil_append, levSpec_nil_left, levSpec_nil_right,
        List.length_append, List.length_cons, List.length_nil]
      by_cases h1 : x = z
      · subst h1
        by_cases h2 : x = y
        · subst h2
          simp <;> omega
        · simp [h2] <;> omega
      · by_cases h2 : x = y
        · subst h2
          simp [h1] <;> omega
        · simp [h1, h2] <;> omega
  | w :: ws, [], x, y => by
      simp only [List.nil_append, List.cons_append]
      rw [levSpec_cons_cons w y (ws ++ [x]) []]
      have ih := levSpec_concat ws [] x y
      simp only [List.nil_append] at ih
      rw [ih]
      rw [levSpec_cons_cons w y ws []]
      simp only [List.nil_append, levSpec_nil_left, levSpec_nil_right,
        List.length_append, List.length_cons, List.length_nil]
      by_cases h1 : w = y
      · subst h1
        by_cases h2 : x = w
        · subst h2
          simp <;> omega
        · simp [h2] <;> omega
      · by_cases h2 : x = y
        · subst h2
          simp [h1] <;> omega
        · simp [h1, h2] <;> omega
  | w :: ws, z :: zs, x, y => by
      have ih1 := levSpec_concat ws zs x y
      have ih2 := levSpec_concat (w :: ws) zs x y
      have ih3 := levSpec_concat ws (z :: zs) x y
      simp only [List.cons_append] at ih2 ih3 ⊢
      rw [levSpec_cons_cons w z (ws ++ [x]) (zs ++ [y])]
      rw [ih1, ih2, ih3]
      rw [levSpec_cons_cons w z ws zs,
        levSpec_cons_cons w z (ws ++ [x]) zs,
        levSpec_cons_cons w z ws (zs ++ [y])]
      by_cases h1 : w = z
      · subst h1
        by_cases h2 : x = y
        · subst h2
          simp <;> omega
        · simp [h2] <;> omega
      · by_cases h2 : x = y
        · subst h2
          simp [h1] <;> omega
        · simp only [if_neg h1, if_neg h2]
          rw [min_add_one, min_add_one, min_add_one, min_add_one]
          rw [min9_transpose (levSpec ws zs) (levSpec (ws ++ [x]) zs)
            (levSpec ws (zs ++ [y])) (levSpec (w :: ws) zs)
            (levSpec (w :: (ws ++ [x])) zs) (levSpec (w :: ws) (zs ++ [y]))
            (levSpec ws (z :: zs)) (levSpec (ws ++ [x]) (z :: zs))
            (levSpec ws (z :: (zs ++ [y])))]
termination_by xs ys _ _ => xs.length + ys.length
decreasing_by all_goals simp <;> omega

/-- Edit distance is invariant under reversing both arguments. -/
theorem levSpec_reverse : ∀ (xs ys : List Char),
    levSpec xs.reverse ys.reverse = levSpec xs ys
  | [], ys => by simp [levSpec_nil_left]
  | x :: xs, [] => by simp [levSpec_nil_right]
  | x :: xs, y :: ys => by
      rw [levSpec_cons_cons x y xs ys]
      simp only [List.reverse_cons]
      rw [levSpec_concat xs.reverse ys.reverse x y]
      rw [levSpec_reverse xs ys]
      rw [show xs.reverse ++ [x] = (x :: xs).reverse from (List.reverse_cons x xs).symm]
      rw [show ys.reverse ++ [y] = (y :: ys).reverse from (List.reverse_cons y ys).symm]
      rw [levSpec_reverse (x :: xs) ys, levSpec_reverse xs (y :: ys)]
termination_by xs ys => xs.length + ys.length
decreasing_by all_goals simp <;> omega

/-- Edit distance is symmetric. -/
theorem levSpec_comm : ∀ (xs ys : List Char), levSpec xs ys = levSpec ys xs
  | [], ys => by simp [levSpec_nil_left, levSpec_nil_right]
  | x :: xs, [] => by simp [levSpec_nil_left, levSpec_nil_right]
  | x :: xs, y :: ys => by
      rw [levSpec_cons_cons x y xs ys, levSpec_cons_cons y x ys xs]
      rw [levSpec_comm xs ys, levSpec_comm (x :: xs) ys, levSpec_comm xs (y :: ys)]
      by_cases h : x = y
      · simp [h]
      · have h2 : ¬ y = x := fun hyx => h hyx.symm
        simp only [h, h2, if_false]
        omega
termination_by xs ys => xs.length + ys.length
decreasing_by all_goals simp <;> omega

theorem levSpec_self : ∀ (xs : List Char), levSpec xs xs = 0
  | [] => by simp [levSpec_nil_left]
  | x :: xs => by
      rw [levSpec_cons_cons]
      simp [levSpec_self xs]

/-- The implementation agrees with the classic recursive Levenshtein
distance on all inputs. -/
theorem levenshteinDistance_eq_levSpec (a b : List Char) :
    levenshteinDistance a b = levSpec a b := by
  rw [levenshteinDistance_eq_rev, levSpec_comm, levSpec_reverse]

/-! ## Concrete similarity facts used by the claims -/

theorem areSimilar_plan_plann : areSimilar "plan" "plann" defaultThreshold = true := by
  have hd : levenshteinDistance ("plan".toList.map Char.toLower)
      ("plann".toList.map Char.toLower) = 1 := by decide
  have h4 : "plan".length = 4 := by decide
  have h5 : "plann".length = 5 := by decide
  simp only [areSimilar, hd, h4, h5]
  norm_num [defaultThreshold]

theorem areSimilar_plan_review : areSimilar "plan" "review" defaultThreshold = false := by
  have hd : levenshteinDistance ("plan".toList.map Char.toLower)
      ("review".toList.map Char.toLower) = 6 := by decide
  have h4 : "plan".length = 4 := by decide
  have h6 : "review".length = 6 := by decide
  simp only [areSimilar, hd, h4, h6]
  norm_num [defaultThreshold]

theorem areSimilar_plann_review : areSimilar "plann" "review" defaultThreshold = false := by
  have hd : levenshteinDistance ("plann".toList.map Char.toLower)
      ("review".toList.map Char.toLower) = 6 := by decide
  have h5 : "plann".length = 5 := by decide
  have h6 : "review".length = 6 := by decide
  simp only [areSimilar, hd, h5, h6]
  norm_num [defaultThreshold]

theorem areSimilar_atxt_btxt : areSimilar "a.txt" "b.txt" defaultThreshold = true := by
  have hd : levenshteinDistance ("a.txt".toList.map Char.toLower)
      ("b.txt".toList.map Char.toLower) = 1 := by decide
  have h5 : "a.txt".length = 5 := by decide
  have h5b : "b.txt".length = 5 := by decide
  simp only [areSimilar, hd, h5, h5b]
  norm_num [defaultThreshold]

theorem areSimilar_a_b : areSimilar "a" "b" defaultThreshold = false := by
  have hd : levenshteinDistance ("a".toList.map Char.toLower)
      ("b".toList.map Char.toLower) = 1 := by decide
  have h1 : "a".length = 1 := by decide
  have h1b : "b".length = 1 := by decide
  simp only [areSimilar, hd, h1, h1b]
  norm_num [defaultThreshold]

/-! ## Claims -/

/-- C1 counterexample: at the default threshold 0.3 (and in fact at every
threshold), `areSimilar("", "")` is false, not true: the source divides
0 by 0, giving NaN, and `NaN <= 0.3` is false. -/
theorem claim_C1_cex : areSimilar "" "" defaultThreshold = false := rfl

/-- C1 (amended): for every threshold `t`, `isSimilar("", "", t)` returns
false — with two empty inputs the source computes `0 / 0 = NaN`, and
`NaN <= t` is false for every `t`. -/
theorem claim_C1 : ∀ t : Rat, areSimilar "" "" t = false := fun _ => rfl

/-- C5: `levenshteinDistance` coincides with the classic unit-cost
Levenshtein distance `levSpec` on all inputs; in particular it is zero on
equal strings, symmetric, equals the length against the empty string, and
`editDistance("kitten", "sitting") = 3`.  (Being `Nat`-valued, it is a
non-negative integer by type.) -/
theorem claim_C5 :
    (∀ a b : List Char, levenshteinDistance a b = levSpec a b) ∧
    (∀ a : List Char, levenshteinDistance a a = 0) ∧
    (∀ a b : List Char, levenshteinDistance a b = levenshteinDistance b a) ∧
    (∀ s : List Char, levenshteinDistance [] s = s.length) ∧
    levenshteinDistance "kitten".toList "sitting".toList = 3 := by
  refine ⟨levenshteinDistance_eq_levSpec, ?_, ?_, ?_, by decide⟩
  · intro a
    rw [levenshteinDistance_eq_levSpec, levSpec_self]
  · intro a b
    rw [levenshteinDistance_eq_levSpec, levenshteinDistance_eq_levSpec, levSpec_comm]
  · intro s
    rw [levenshteinDistance_eq_levSpec, levSpec_nil_left]

/-- C8: the `keepSettings` branch of `removeSettings` removes exactly the
marker key: the marker is absent from the result and every other key keeps
its value; the source only mutates the tree it freshly parsed, so the pure
content is this tree-to-tree map, and `removeSettingsKeep` is `deleteKey`
at the source's fixed marker. -/
theorem claim_C8 (tree : List (String × Jv)) (markerKey k : String)
    (hk : k ≠ markerKey) :
    jlookup (deleteKey tree markerKey) markerKey = none ∧
    jlookup (deleteKey tree markerKey) k = jlookup tree k ∧
    removeSettingsKeep tree = deleteKey tree "danizee-suite" := by
  refine ⟨?_, ?_, rfl⟩
  · induction tree with
    | nil => rfl
    | cons e rest ih =>
        by_cases h : e.1 = markerKey
        · simpa [deleteKey, h] using ih
        · simpa [deleteKey, List.filter_cons, h, jlookup] using ih
  · have hmk : ¬ markerKey = k := fun h1 => hk h1.symm
    induction tree with
    | nil => rfl
    | cons e rest ih =>
        by_cases h : e.1 = markerKey
        · simpa [deleteKey, List.filter_cons, h, jlookup, hmk] using ih
        · by_cases hek : e.1 = k
          · simp [deleteKey, List.filter_cons, h, jlookup, hek, hk]
          · simpa [deleteKey, List.filter_cons, h, jlookup, hek] using ih

theorem claim_C8_witness :
    (("version" : String) ≠ "danizee-suite") ∧
    jlookup (deleteKey [("danizee-suite", Jv.obj []), ("version", Jv.num 2)]
      "danizee-suite") "danizee-suite" = none ∧
    jlookup (deleteKey [("danizee-suite", Jv.obj []), ("version", Jv.num 2)]
      "danizee-suite") "version"
      = jlookup [("danizee-suite", Jv.obj []), ("version", Jv.num 2)] "version" ∧
    removeSettingsKeep [("danizee-suite", Jv.obj []), ("version", Jv.num 2)]
      = deleteKey [("danizee-suite", Jv.obj []), ("version", Jv.num 2)] "danizee-suite" := by
  have h := claim_C8 [("danizee-suite", Jv.obj []), ("version", Jv.num 2)]
    "danizee-suite" "version" (by decide)
  exact ⟨by decide, h.1, h.2.1, h.2.2⟩

/-! ## Pair-scan lemmas (claims C7 and C9) -/

theorem map_range_getD (l : List String) :
    (List.range l.length).map (fun j => l.getD j "") = l := by
  induction l with
  | nil => rfl
  | cons c l ih =>
      rw [List.length_cons, List.range_succ_eq_map]
      simp only [List.map_cons, List.getD_cons_zero, List.map_map]
      have : ((fun j => (c :: l).getD j "") ∘ Nat.succ) = fun j => l.getD j "" := by
        funext j
        simp [List.getD_cons_succ]
      rw [this, ih]

theorem lexPairsSpec_cons (x : String) (rest : List String) :
    lexPairsSpec (x :: rest) = rest.map (fun y => (x, y)) ++ lexPairsSpec rest := by
  rw [lexPairsSpec, lexPairsSpec]
  rw [List.length_cons, List.range_succ_eq_map]
  rw [List.flatMap_cons]
  congr 1
  · rw [List.filter_cons]
    have h0 : (decide (0 < 0)) = false := by decide
    rw [h0]
    simp only [Bool.false_eq_true, if_false]
    have hall : List.filter (fun j => decide (0 < j)) (List.map Nat.succ (List.range rest.length))
        = List.map Nat.succ (List.range rest.length) := by
      rw [List.filter_map]
      have : ((fun j => decide (0 < j)) ∘ Nat.succ) = fun _ => true := by
        funext j
        simp
      rw [this, List.filter_true]
    rw [hall, List.map_map]
    have : ((fun j => ((x :: rest).getD 0 "", (x :: rest).getD j "")) ∘ Nat.succ)
        = fun j => (x, rest.getD j "") := by
      funext j
      simp [List.getD_cons_succ]
    rw [this]
    have := map_range_getD rest
    calc (List.range rest.length).map (fun j => (x, rest.getD j ""))
        = ((List.range rest.length).map (fun j => rest.getD j "")).map
            (fun y => (x, y)) := by rw [List.map_map]; rfl
      _ = rest.map (fun y => (x, y)) := by rw [map_range_getD]
  · rw [List.flatMap_map]
    congr 1
    funext i
    rw [List.filter_cons]
    have h0 : (decide (Nat.succ i < 0)) = false := by simp
    rw [h0]
    simp only [Bool.false_eq_true, if_false]
    rw [List.filter_map]
    have : ((fun j => decide (Nat.succ i < j)) ∘ Nat.succ) = fun j => decide (i < j) := by
      funext j
      simp [Nat.succ_lt_succ_iff]
    rw [this, List.map_map]
    congr 1

theorem scanPairsFrom_eq (x : String) (l : List String) :
    scanPairsFrom x l
      = (l.map (fun y => (x, y))).filter (fun p => areSimilar p.1 p.2 defaultThreshold) := by
  induction l with
  | nil => rfl
  | cons y rest ih =>
      rw [scanPairsFrom, List.map_cons, List.filter_cons]
      by_cases h : areSimilar x y defaultThreshold
      · simp only [h, if_true, ih]
        rfl
      · simp only [h, Bool.false_eq_true, if_false, ih]
        rfl

theorem scanForSimilarNames_eq (names : List String) :
    scanForSimilarNames names
      = (allPairs names).filter (fun p => areSimilar p.1 p.2 defaultThreshold) := by
  induction names with
  | nil => rfl
  | cons x rest ih =>
      rw [scanForSimilarNames, allPairs, List.filter_append, scanPairsFrom_eq, ih]

theorem allPairs_eq_lexPairsSpec (l : List String) : allPairs l = lexPairsSpec l := by
  induction l with
  | nil => rfl
  | cons x rest ih => rw [allPairs, lexPairsSpec_cons, ih]

/-- C7: the scan tests exactly the position pairs `(i, j)` with `i < j`,
outer index ascending then inner index ascending, keeping the flagged ones
in that order; on `["plan", "plann", "review"]` it flags exactly
`("plan", "plann")`. -/
theorem claim_C7 :
    (∀ names : List String,
      scanForSimilarNames names
        = (lexPairsSpec names).filter (fun p => areSimilar p.1 p.2 defaultThreshold)) ∧
    scanForSimilarNames ["plan", "plann", "review"] = [("plan", "plann")] := by
  constructor
  · intro names
    rw [scanForSimilarNames_eq, allPairs_eq_lexPairsSpec]
  · simp [scanForSimilarNames, scanPairsFrom, areSimilar_plan_plann,
      areSimilar_plan_review, areSimilar_plann_review]

theorem similarRecords_eq (subdir fi : String) (l : List String) :
    similarRecords subdir fi l
      = (l.map (fun y => (fi, y))).filterMap (fun p =>
          if areSimilar (stripMd p.1) (stripMd p.2) defaultThreshold then
            some (ConflictRecord.similar_commands subdir [p.1, p.2]
              (similarMsg (stripMd p.1) (stripMd p.2)))
          else none) := by
  induction l with
  | nil => rfl
  | cons y rest ih =>
      rw [similarRecords, List.map_cons, List.filterMap_cons]
      by_cases h : areSimilar (stripMd fi) (stripMd y) defaultThreshold
      · simp only [h, if_true, ih]
        rfl
      · simp only [h, Bool.false_eq_true, if_false, ih]
        rfl

theorem dirRecords_eq (subdir : String) (files : List String) :
    dirRecords subdir files
      = (allPairs files).filterMap (fun p =>
          if areSimilar (stripMd p.1) (stripMd p.2) defaultThreshold then
            some (ConflictRecord.similar_commands subdir [p.1, p.2]
              (similarMsg (stripMd p.1) (stripMd p.2)))
          else none) := by
  induction files with
  | nil => rfl
  | cons fi rest ih =>
      rw [dirRecords, allPairs, List.filterMap_append, similarRecords_eq, ih]

/-- C9 counterexample: file extensions other than `.md` are not stripped.
With files `a.txt` and `b.txt` the code flags the pair (distance 1 over
length 5), though the extension-free base names `a` and `b` are not similar
(distance 1 over length 1); `stripMd` (the code's only name transformation,
`replace('.md', '')`) leaves `a.txt` untouched. -/
theorem claim_C9_cex :
    detectDuplicateCommands [("workflows", ["a.txt", "b.txt"])]
      = [ConflictRecord.similar_commands "workflows" ["a.txt", "b.txt"]
          (similarMsg "a.txt" "b.txt")] ∧
    areSimilar "a" "b" defaultThreshold = false ∧
    stripMd "a.txt" = "a.txt" := by
  have ha : stripMd "a.txt" = "a.txt" := by decide
  have hb : stripMd "b.txt" = "b.txt" := by decide
  refine ⟨?_, areSimilar_a_b, ha⟩
  simp [detectDuplicateCommands, dirRecords, similarRecords, ha, hb, areSimilar_atxt_btxt]

/-- C9 (amended): for each directory the scan compares, for every position
pair `(i, j)` with `i < j` in order, the file names after removing only the
first occurrence of the literal substring `.md` (no other extension is
stripped); each emitted record carries the directory and the two original
file names, with the message built from the `.md`-stripped names. -/
theorem claim_C9 (layout : List (String × List String)) :
    detectDuplicateCommands layout
      = layout.flatMap (fun d =>
          (lexPairsSpec d.2).filterMap (fun p =>
            if areSimilar (stripMd p.1) (stripMd p.2) defaultThreshold then
              some (ConflictRecord.similar_commands d.1 [p.1, p.2]
                (similarMsg (stripMd p.1) (stripMd p.2)))
            else none)) := by
  induction layout with
  | nil => rfl
  | cons d rest ih =>
      cases d with
      | mk subdir files =>
          rw [detectDuplicateCommands, List.flatMap_cons, dirRecords_eq,
            allPairs_eq_lexPairsSpec, ih]

/-! ## Settings-conflict claims -/

theorem pluginOverrides_eq (lp : Jv) (keys : List String) :
    pluginOverrides lp keys
      = keys.filterMap (fun k =>
          if truthyOpt (getProp lp k) then
            some (ConflictRecord.plugin_override k (pluginMsg k))
          else none) := by
  induction keys with
  | nil => rfl
  | cons k rest ih =>
      rw [pluginOverrides, List.filterMap_cons]
      by_cases h : truthyOpt (getProp lp k)
      · simp only [h, if_true, ih]
        rfl
      · simp only [h, Bool.false_eq_true, if_false, ih]
        rfl

/-- C2 counterexample: with `settings.plugins = {x: true}` and
`localSettings.plugins = {x: false}` the code emits no record at all — the
guard `localSettings.plugins[plugin]` is a truthiness test, and `false` is
falsy — where the claim demands exactly one `plugin_override` for `x`. -/
theorem claim_C2_cex :
    detectSettingsConflicts
      (some (Jv.obj [("plugins", Jv.obj [("x", Jv.bool true)])]))
      (some (Jv.obj [("plugins", Jv.obj [("x", Jv.bool false)])])) = [] := rfl

/-- C2 (amended): when both `plugins` maps are present, one
`plugin_override` record is emitted for each key of `settingsTree.plugins`
(in key order) whose value in `localSettingsTree.plugins` is truthy — not
for every shared key; in particular `{x: true}` against `{x: false}` yields
no record. -/
theorem claim_C2 :
    (∀ ps ls : List (String × Jv),
      detectSettingsConflicts (some (Jv.obj [("plugins", Jv.obj ps)]))
          (some (Jv.obj [("plugins", Jv.obj ls)]))
        = (ps.map Prod.fst).filterMap (fun k =>
            if truthyOpt (jlookup ls k) then
              some (ConflictRecord.plugin_override k (pluginMsg k))
            else none)) ∧
    detectSettingsConflicts
      (some (Jv.obj [("plugins", Jv.obj [("x", Jv.bool true)])]))
      (some (Jv.obj [("plugins", Jv.obj [("x", Jv.bool false)])])) = [] := by
  constructor
  · intro ps ls
    show detectSettingsConflictsCore (Jv.obj [("plugins", Jv.obj ps)])
        (Jv.obj [("plugins", Jv.obj ls)]) = _
    rw [detectSettingsConflictsCore]
    show pluginOverrides (Jv.obj ls) (ps.map Prod.fst) ++ [] = _
    rw [List.append_nil, pluginOverrides_eq]
    rfl
  · rfl

/-- C6: the report's conflicts are exactly the three detectors' records in
the fixed order commands, settings, mcp, followed by one
`existing_installation` record iff an installation is detected and `force`
is false; `hasConflicts` holds iff the list is non-empty, and `existing` is
the detector's result.  Concretely, a settings tree holding the marker key
yields exactly the one appended record with `force = false` and none with
`force = true`. -/
theorem claim_C6 :
    (∀ (layout : List (String × List String)) (s ls : Option Jv) (force : Bool),
      (runConflictChecks layout s ls force).conflicts
        = detectDuplicateCommands layout ++ detectSettingsConflicts s ls
            ++ detectMcpConflicts s
            ++ (if (detectExistingInstallation s).installed = true ∧ force = false then
                  [existingRecord (detectExistingInstallation s)]
                else []) ∧
      (runConflictChecks layout s ls force).existing = detectExistingInstallation s ∧
      ((runConflictChecks layout s ls force).hasConflicts = true
        ↔ (runConflictChecks layout s ls force).conflicts ≠ [])) ∧
    (runConflictChecks []
        (some (Jv.obj [("danizee-suite", Jv.obj [("version", Jv.str "1.0.0")])]))
        none false).conflicts
      = [ConflictRecord.existing_installation "1.0.0" (existingMsg "1.0.0")] ∧
    (runConflictChecks []
        (some (Jv.obj [("danizee-suite", Jv.obj [("version", Jv.str "1.0.0")])]))
        none true).conflicts = [] := by
  refine ⟨?_, rfl, rfl⟩
  intro layout s ls force
  refine ⟨?_, rfl, ?_⟩
  · rw [runConflictChecks]
    cases hI : (detectExistingInstallation s).installed <;> cases force <;>
      simp [hI, List.append_assoc]
  · have hgen : ∀ l : List ConflictRecord, (decide (0 < l.length) = true ↔ l ≠ []) := by
      intro l
      cases l <;> simp
    exact hgen _

/-! ## deepMerge lemmas (claims C3, C4, C10) -/

theorem jlookup_setKey_same : ∀ (res : List (String × Jv)) (k : String) (v : Jv),
    jlookup (setKey res k v) k = some v := by
  intro res k v
  induction res with
  | nil => simp [setKey, jlookup]
  | cons e rest ih =>
      obtain ⟨k1, v1⟩ := e
      by_cases h : k1 = k
      · simp [setKey, jlookup, h]
      · simp [setKey, jlookup, h, ih]

theorem jlookup_setKey_other : ∀ (res : List (String × Jv)) (k : String) (v : Jv)
    (k' : String), k ≠ k' → jlookup (setKey res k v) k' = jlookup res k' := by
  intro res k v k' hk
  induction res with
  | nil => simp [setKey, jlookup, hk]
  | cons e rest ih =>
      obtain ⟨k1, v1⟩ := e
      by_cases h : k1 = k
      · subst h
        simp [setKey, jlookup, hk]
      · simp [setKey, jlookup, h, ih]

theorem jlookup_of_any_eq_false : ∀ (l : List (String × Jv)) (k : String),
    l.any (fun e => e.1 == k) = false → jlookup l k = none := by
  intro l k h
  induction l with
  | nil => rfl
  | cons e rest ih =>
      rw [List.any_cons] at h
      rcases Bool.or_eq_false_iff.mp h with ⟨h1, h2⟩
      obtain ⟨k1, v1⟩ := e
      have : ¬ k1 = k := by simpa using h1
      simp [jlookup, this, ih h2]

theorem deepMergeAux_absent (target : List (String × Jv)) :
    ∀ (src res : List (String × Jv)) (k : String),
      jlookup src k = none →
      jlookup (deepMergeAux target res src) k = jlookup res k := by
  intro src
  induction src with
  | nil => intro res k _; simp [deepMergeAux]
  | cons e rest ih =>
      intro res k h
      obtain ⟨k1, sv⟩ := e
      rw [jlookup] at h
      by_cases hk : k1 = k
      · simp [hk] at h
      · simp only [hk, if_false] at h
        cases sv <;>
          simp only [deepMergeAux] <;>
          rw [ih _ _ h, jlookup_setKey_other _ _ _ _ hk]

theorem deepMergeAux_found (target : List (String × Jv)) :
    ∀ (src res : List (String × Jv)) (k : String) (sv : Jv),
      noDupKeys src = true → jlookup src k = some sv →
      jlookup (deepMergeAux target res src) k = some (mergeVal target k sv) := by
  intro src
  induction src with
  | nil => intro res k sv _ h2; simp [jlookup] at h2
  | cons e rest ih =>
      intro res k sv h1 h2
      obtain ⟨k1, sv1⟩ := e
      rw [noDupKeys, Bool.and_eq_true] at h1
      obtain ⟨hnd1, hnd2⟩ := h1
      rw [jlookup] at h2
      by_cases hk : k1 = k
      · subst hk
        rw [if_pos rfl] at h2
        injection h2 with h2
        subst h2
        have hrest : jlookup rest k1 = none := by
          apply jlookup_of_any_eq_false
          simpa using hnd1
        cases sv1 <;>
          simp only [deepMergeAux] <;>
          rw [deepMergeAux_absent target rest _ k1 hrest, jlookup_setKey_same] <;>
          rfl
      · simp only [hk, if_false] at h2
        cases sv1 <;>
          simp only [deepMergeAux] <;>
          exact ih _ k sv hnd2 h2

theorem getPath_cons_some (o : List (String × Jv)) (k : String) (p : List String)
    (w : Jv) (h : jlookup o k = some w) :
    getPath (Jv.obj o) (k :: p) = getPath w p := by
  rw [getPath, h]

theorem getPath_cons_none (o : List (String × Jv)) (k : String) (p : List String)
    (h : jlookup o k = none) : getPath (Jv.obj o) (k :: p) = none := by
  rw [getPath, h]

/-- C3: `deepMerge` preserves the base everywhere the overlay is silent.
Along any key path on which the overlay (an object tree with unduplicated
keys, as `JSON.parse` yields) either lacks the key or recurses through a
nested object, and whose final key the overlay does not reach, the merged
tree returns exactly the base's value.  The source builds its result from
`{...target}` and writes only to that fresh object, never to either
argument — in this pure embedding `deepMerge` is a function of its
arguments, and this theorem is the retained-keys content of the claim at
every depth. -/
theorem claim_C3 (t s : Jv) (p : List String) (v : Jv)
    (hok : okOverlay s p = true) (hs : getPath s p = none)
    (ht : getPath t p = some v) :
    getPath (deepMerge t s) p = some v := by
  induction p generalizing t s v with
  | nil =>
      rw [getPath] at hs
      exact absurd hs (by simp)
  | cons k p ih =>
      cases s with
      | null => simp [okOverlay] at hok
      | bool b => simp [okOverlay] at hok
      | num n => simp [okOverlay] at hok
      | str s1 => simp [okOverlay] at hok
      | arr l => simp [okOverlay] at hok
      | obj so =>
          cases t with
          | null => simp [getPath] at ht
          | bool b => simp [getPath] at ht
          | num n => simp [getPath] at ht
          | str s1 => simp [getPath] at ht
          | arr l => simp [getPath] at ht
          | obj te =>
              rw [okOverlay, Bool.and_eq_true] at hok
              obtain ⟨hnd, hok2⟩ := hok
              cases hto : jlookup te k with
              | none =>
                  rw [getPath_cons_none te k p hto] at ht
                  exact absurd ht (by simp)
              | some tv =>
                  rw [getPath_cons_some te k p tv hto] at ht
                  cases hso : jlookup so k with
                  | none =>
                      show getPath (Jv.obj (deepMergeAux te te so)) (k :: p) = some v
                      rw [getPath_cons_some _ k p tv
                        (by rw [deepMergeAux_absent te so te k hso]; exact hto)]
                      exact ht
                  | some sv =>
                      rw [hso] at hok2
                      cases sv with
                      | null => simp at hok2
                      | bool b => simp at hok2
                      | num n => simp at hok2
                      | str s2 => simp at hok2
                      | arr l2 => simp at hok2
                      | obj o2 =>
                          simp only at hok2
                          rw [getPath_cons_some so k p (Jv.obj o2) hso] at hs
                          show getPath (Jv.obj (deepMergeAux te te so)) (k :: p) = some v
                          rw [getPath_cons_some _ k p (mergeVal te k (Jv.obj o2))
                            (deepMergeAux_found te so te k (Jv.obj o2) hnd hso)]
                          cases p with
                          | nil =>
                              rw [getPath] at hs
                              exact absurd hs (by simp)
                          | cons k2 p2 =>
                              cases tv with
                              | null => simp [getPath] at ht
                              | bool b => simp [getPath] at ht
                              | num n => simp [getPath] at ht
                              | str s2 => simp [getPath] at ht
                              | arr l2 => simp [getPath] at ht
                              | obj tvo =>
                                  have hmv : mergeVal te k (Jv.obj o2)
                                      = Jv.obj (deepMergeAux tvo tvo o2) := by
                                    simp [mergeVal, hto, jsOrEmptyObj, truthy, toObjEntries]
                                  rw [hmv]
                                  exact ih (Jv.obj tvo) (Jv.obj o2) v hok2 hs ht

theorem claim_C3_witness :
    okOverlay (Jv.obj [("a", Jv.obj [("y", Jv.num 3)])]) ["a", "x"] = true ∧
    getPath (Jv.obj [("a", Jv.obj [("y", Jv.num 3)])]) ["a", "x"] = none ∧
    getPath (Jv.obj [("a", Jv.obj [("x", Jv.num 1), ("y", Jv.num 2)])]) ["a", "x"]
      = some (Jv.num 1) ∧
    getPath (deepMerge (Jv.obj [("a", Jv.obj [("x", Jv.num 1), ("y", Jv.num 2)])])
        (Jv.obj [("a", Jv.obj [("y", Jv.num 3)])])) ["a", "x"] = some (Jv.num 1) :=
  ⟨rfl, rfl, rfl,
    claim_C3 (Jv.obj [("a", Jv.obj [("x", Jv.num 1), ("y", Jv.num 2)])])
      (Jv.obj [("a", Jv.obj [("y", Jv.num 3)])]) ["a", "x"] (Jv.num 1) rfl rfl rfl⟩

/-- C4: an array in the overlay replaces the base value wholesale.  For any
key whose source value is an array, the merged object holds exactly that
array (never an element-wise merge, concatenation or union), whatever the
target held; concretely `deepMerge({a:[1,2]}, {a:[3]})` is `{a:[3]}`. -/
theorem claim_C4 :
    (∀ (t : Jv) (s : List (String × Jv)) (k : String) (l : List Jv),
      noDupKeys s = true → jlookup s k = some (Jv.arr l) →
      jlookup (toObjEntries (deepMerge t (Jv.obj s))) k = some (Jv.arr l)) ∧
    deepMerge (Jv.obj [("a", Jv.arr [Jv.num 1, Jv.num 2])])
        (Jv.obj [("a", Jv.arr [Jv.num 3])])
      = Jv.obj [("a", Jv.arr [Jv.num 3])] := by
  constructor
  · intro t s k l hnd hl
    show jlookup (deepMergeAux (toObjEntries t) (toObjEntries t) s) k = _
    rw [deepMergeAux_found (toObjEntries t) s (toObjEntries t) k (Jv.arr l) hnd hl]
    rfl
  · simp [deepMerge, deepMergeAux, toObjEntries, setKey]

theorem claim_C4_witness :
    noDupKeys [("a", Jv.arr [Jv.num 3])] = true ∧
    jlookup [("a", Jv.arr [Jv.num 3])] "a" = some (Jv.arr [Jv.num 3]) ∧
    jlookup (toObjEntries (deepMerge (Jv.obj [("a", Jv.arr [Jv.num 1, Jv.num 2])])
        (Jv.obj [("a", Jv.arr [Jv.num 3])]))) "a" = some (Jv.arr [Jv.num 3]) :=
  ⟨rfl, rfl, claim_C4.1 (Jv.obj [("a", Jv.arr [Jv.num 1, Jv.num 2])])
    [("a", Jv.arr [Jv.num 3])] "a" [Jv.num 3] rfl rfl⟩

/-- C10 counterexample: when the base holds a truthy array at the key, the
result is not a plain copy of the overlay's subtree — `target[key] || {}`
keeps the array and `{...array}` spreads its index entries.  Merging base
`{a:[1,2]}` with overlay `{a:{x:1}}` puts `1` at path `a.0` of the result,
while the claimed copy `deepMerge({}, {x:1})` has nothing at key `0`. -/
theorem claim_C10_cex :
    getPath (deepMerge (Jv.obj [("a", Jv.arr [Jv.num 1, Jv.num 2])])
        (Jv.obj [("a", Jv.obj [("x", Jv.num 1)])])) ["a", "0"] = some (Jv.num 1) ∧
    getPath (deepMerge (Jv.obj []) (Jv.obj [("x", Jv.num 1)])) ["0"] = none := by
  have henum : toObjEntries (Jv.arr [Jv.num 1, Jv.num 2])
      = [("0", Jv.num 1), ("1", Jv.num 2)] := rfl
  have h0 : toString (0 : Nat) = "0" := rfl
  have h1 : toString (1 : Nat) = "1" := rfl
  constructor
  · simp [deepMerge, deepMergeAux, toObjEntries, jsOrEmptyObj, truthy, setKey,
      jlookup, getPath, henum, h0, h1]
  · simp [deepMerge, deepMergeAux, toObjEntries, setKey, jlookup, getPath]

/-- C10 (amended): the base value is discarded in favour of a plain copy of
the overlay's subtree exactly when it contributes no spread entries — it is
absent, falsy (`null`, `false`, `0`, `""`), or a truthy value with no own
enumerable entries (a number, `true`, an empty array).  A truthy non-empty
array or string at the key instead contributes its index-keyed entries
underneath the overlay's keys (see the counterexample). -/
theorem claim_C10 (t : Jv) (s : List (String × Jv)) (k : String)
    (o : List (String × Jv))
    (hnd : noDupKeys s = true) (hs : jlookup s k = some (Jv.obj o))
    (hb : toObjEntries (jsOrEmptyObj (jlookup (toObjEntries t) k)) = []) :
    jlookup (toObjEntries (deepMerge t (Jv.obj s))) k
      = some (deepMerge (Jv.obj []) (Jv.obj o)) := by
  show jlookup (deepMergeAux (toObjEntries t) (toObjEntries t) s) k = _
  rw [deepMergeAux_found (toObjEntries t) s (toObjEntries t) k (Jv.obj o) hnd hs]
  rw [show mergeVal (toObjEntries t) k (Jv.obj o)
      = Jv.obj (deepMergeAux (toObjEntries (jsOrEmptyObj (jlookup (toObjEntries t) k)))
          (toObjEntries (jsOrEmptyObj (jlookup (toObjEntries t) k))) o) from rfl]
  rw [hb]
  rfl

theorem claim_C10_witness :
    noDupKeys [("a", Jv.obj [("x", Jv.num 1)])] = true ∧
    jlookup [("a", Jv.obj [("x", Jv.num 1)])] "a" = some (Jv.obj [("x", Jv.num 1)]) ∧
    toObjEntries (jsOrEmptyObj
      (jlookup (toObjEntries (Jv.obj [("a", Jv.num 0)])) "a")) = [] ∧
    jlookup (toObjEntries (deepMerge (Jv.obj [("a", Jv.num 0)])
        (Jv.obj [("a", Jv.obj [("x", Jv.num 1)])]))) "a"
      = some (deepMerge (Jv.obj []) (Jv.obj [("x", Jv.num 1)])) :=
  ⟨rfl, rfl, rfl, claim_C10 (Jv.obj [("a", Jv.num 0)]) [("a", Jv.obj [("x", Jv.num 1)])]
    "a" [("x", Jv.num 1)] rfl rfl rfl⟩
